import Mathlib

/-!
Verification development for the IDB value-wrapping layer
(`src/wrap-idb-value.js`).

Shallow embedding: JS objects are heap references (`Nat`) into an explicit
heap of model objects (`Obj`); the module-level `WeakMap`/`Map` caches of the
source (`transformCache`, `reverseTransformCache`, `transactionDoneMap`,
`cachedMethods`, `advanceResults`, `proxiedCursorLookup`, `cursorFunctions`)
are fields of an explicit state `St`, and each mutating source function is a
state transformer `St → ... → St × _`.  `WeakMap.set` is modelled by consing
onto an association list and `get` by first-match lookup, so a later `set`
shadows an earlier one exactly as overwriting does.  Event-driven promise
settlement is modelled by explicit step functions over listener flags and a
promise-state machine.
-/

namespace Idb

/-- Errors observable in the model: the `DOMException('AbortError','AbortError')`
built by the transaction done handler, the `NotFoundError` thrown by
`IDBTransaction.objectStore` for an unknown name, and the `TypeError` a
`WeakSet.add` raises on a non-object. -/
inductive Err where
  | abortError
  | notFoundError
  | typeError
  | domError (name : String)
deriving DecidableEq, Repr

/-- The `instanceof` class of an underlying IDB object.  `notIdb` stands for
every value that is none of the IDB interface types (plain objects,
promises, functions, primitives). -/
inductive Kind where
  | database
  | objectStore
  | index
  | transaction
  | cursor
  | request
  | notIdb
deriving DecidableEq, Repr

/-- Data carried by a raw (host-provided) IDB object: its `instanceof` class,
the property names present on it (own and inherited, as tested by `in`),
the object-valued properties reachable from it, and — for transactions —
the participating object stores in `objectStoreNames` order (name paired
with the raw store reference). -/
structure RawData where
  kind : Kind
  props : List String := []
  fields : List (String × Nat) := []
  stores : List (String × Nat) := []
deriving DecidableEq, Repr

/-- Model heap objects.  `raw` is a host object; `proxy` is
`new Proxy(target, idbProxyTraps)` (its `instanceof` class is the snapshot
of the target's class, since `instanceof` on a JS proxy consults the
target); `iterProxy` is `new Proxy(cursor, cursorIteratorTraps)` from
`iterate` (its target is always a wrapped cursor, so its class is
`cursor`); `reqPromise` is the promise built by `promisifyRequest`;
`donePromise` is the transaction-done promise built by
`transformCachableValue`; `wrappedFn` is the closure built by
`wrapFunction` (flagged when the original was in `cursorFunctions`);
`advanceStub` is the per-name `func` cached by `cursorIteratorTraps`;
`shorthandFn` is the per-name `method` cached by `getMethod`; `rawFn` is a
host function such as `IDBCursor.prototype.continue`. -/
inductive Obj where
  | raw (d : RawData)
  | proxy (target : Nat) (k : Kind)
  | iterProxy (target : Nat)
  | reqPromise (req : Nat)
  | donePromise (tx : Nat)
  | wrappedFn (orig : Nat) (cursorSpecial : Bool)
  | advanceStub (name : String)
  | shorthandFn (name : String) (isWrite : Bool) (useIndex : Bool)
  | rawFn (name : String)
deriving DecidableEq, Repr

/-- First-match lookup in a `Nat`-keyed association list; models
`WeakMap.get` given that `set` conses a fresh entry at the front. -/
def lookupRef (l : List (Nat × Nat)) (k : Nat) : Option Nat :=
  match l with
  | [] => none
  | e :: t => if e.1 = k then some e.2 else lookupRef t k

/-- First-match lookup in a `String`-keyed association list; models
`Map.get` for `cachedMethods`. -/
def lookupStr (l : List (String × Nat)) (k : String) : Option Nat :=
  match l with
  | [] => none
  | e :: t => if e.1 = k then some e.2 else lookupStr t k

/-- Remove every entry with the given key; models `WeakMap.delete`. -/
def eraseKey (l : List (Nat × Nat)) (k : Nat) : List (Nat × Nat) :=
  match l with
  | [] => []
  | e :: t => if e.1 = k then eraseKey t k else e :: eraseKey t k

/-- The module-level mutable state of `wrap-idb-value.js`: the heap of model
objects plus the seven top-level caches declared at the top of the file. -/
structure St where
  heap : List Obj := []
  transformCache : List (Nat × Nat) := []
  reverseTransformCache : List (Nat × Nat) := []
  transactionDoneMap : List (Nat × Nat) := []
  cachedMethods : List (String × Nat) := []
  advanceResults : List (Nat × Nat) := []
  proxiedCursorLookup : List (Nat × Nat) := []
  cursorFunctions : List Nat := []
deriving DecidableEq, Repr

/-- Allocate a fresh heap object, returning its reference. -/
def alloc (s : St) (o : Obj) : St × Nat :=
  ({ s with heap := s.heap ++ [o] }, s.heap.length)

/-- The `instanceof` class of a reference (`notIdb` for promises, functions
and dangling references). -/
def kindOf (s : St) (r : Nat) : Kind :=
  match s.heap[r]? with
  | some (.raw d) => d.kind
  | some (.proxy _ k) => k
  | some (.iterProxy _) => .cursor
  | _ => .notIdb

/-- `typeof v === 'function'` on a reference. -/
def isFunctionRef (s : St) (r : Nat) : Bool :=
  match s.heap[r]? with
  | some (.wrappedFn _ _) => true
  | some (.advanceStub _) => true
  | some (.shorthandFn _ _ _) => true
  | some (.rawFn _) => true
  | _ => false

/-- `isStoreLike`: `v instanceof IDBObjectStore || v instanceof IDBIndex`. -/
def isStoreLike (s : St) (r : Nat) : Bool :=
  kindOf s r = .objectStore || kindOf s r = .index

/-- `isProxyable`: store-like, or an instance of `IDBDatabase`, `IDBCursor`
or `IDBTransaction` (the lazily initialised `idbProxyableTypes` list is a
constant after first use, so it is modelled directly). -/
def isProxyable (s : St) (r : Nat) : Bool :=
  isStoreLike s r || kindOf s r = .database || kindOf s r = .cursor ||
    kindOf s r = .transaction

/-- The `advanceMethods` list of the source. -/
def advanceMethods : List String := ["advance", "continue", "continuePrimaryKey"]

/-- The `readMethods` list of the source. -/
def readMethods : List String := ["get", "getKey", "getAll", "getAllKeys", "count"]

/-- The `writeMethods` list of the source. -/
def writeMethods : List String := ["put", "add", "delete", "clear"]

/-! ### Cursor iteration with the default advance (claim C2)

`iterate` (lines 89-110), specialised to a consumer that never calls an
advance method.  The underlying store or index holds `N` records; cursor
positions are `0, ..., N - 1` in underlying-API order.  `openCursor`
resolves the cursor at the first matching record or `null` when there is
none, and `cursor.continue()` resolves the cursor at the next record or
`null` past the last.  Because the consumer never calls an advance method,
`advanceResults.get(proxiedCursor)` is always absent (it is also deleted at
the end of every pass), so each pass awaits the default `cursor.continue()`
of line 107. -/

/-- Underlying `cursor.continue()` on a store of `N` records at position
`p`: the next position, or `none` (null cursor) past the last record. -/
def contStepModel (N p : Nat) : Option Nat :=
  if p + 1 < N then some (p + 1) else none

/-- Underlying `openCursor()` on a store of `N` records: the cursor at
position 0, or `none` (null) when the store is empty. -/
def openCursorModel (N : Nat) : Option Nat :=
  if N = 0 then none else some 0

/-- The `while (cursor)` loop of `iterate` (lines 104-109) under the default
advance: yield the current position, await `cursor.continue()`, stop when
the awaited result is null. -/
def iterLoopDefault (N p : Nat) : List Nat :=
  p ::
    (match h : contStepModel N p with
     | none => []
     | some q => iterLoopDefault N q)
termination_by N - p
decreasing_by
  simp only [contStepModel] at h
  split at h
  · cases h
    omega
  · cases h

/-- `iterate` invoked on a non-cursor target (store or index) with `N`
records, consumer never advancing: open the initial cursor (empty sequence
when it is null), then run the loop. -/
def iterateStore (N : Nat) : List Nat :=
  match openCursorModel N with
  | none => []
  | some p => iterLoopDefault N p

/-! ### The advance-intent slot (claim C6)

`cursorIteratorTraps` (lines 66-84) and the loop body of `iterate`
(lines 104-109).  A call of a cached advance stub `func` with `this` bound
to the proxied cursor `pc` invokes the underlying advance method (whose
resulting promise is the abstract value `result`) and executes
`advanceResults.set(this, result)`.  At the end of a pass, `iterate` awaits
`advanceResults.get(proxiedCursor) || cursor.continue()` and then executes
`advanceResults.delete(proxiedCursor)`. -/

/-- Body of the stub `func` of `cursorIteratorTraps` (lines 74-77):
stash the promise of the just-invoked underlying advance call in
`advanceResults`, keyed by the proxied cursor. -/
def advanceStubCall (s : St) (pc : Nat) (result : Nat) : St :=
  { s with advanceResults := (pc, result) :: s.advanceResults }

/-- End of one pass of the `iterate` loop (lines 107-108): await the stashed
advance-intent promise if present, else the default `cursor.continue()`
promise, then delete the stashed intent. -/
def passAwait (s : St) (pc : Nat) (defaultAdvance : Nat) : St × Nat :=
  let awaited :=
    match lookupRef s.advanceResults pc with
    | some r => r
    | none => defaultAdvance
  ({ s with advanceResults := eraseKey s.advanceResults pc }, awaited)

/-! ### The wrap machinery (lines 112-281) -/

/-- `wrapFunction` (lines 117-141): build the one wrapper closure for a raw
function, flagged cursor-special when the function is in `cursorFunctions`
(per-func uniqueness is provided by the caching in `wrap`, so a fresh
closure per call is faithful). -/
def wrapFunction (s : St) (f : Nat) : St × Nat :=
  alloc s (.wrappedFn f (s.cursorFunctions.contains f))

/-- `promisifyRequest` (lines 147-170): build a fresh promise for the request
and register it in `reverseTransformCache` only (one request backs many
promises, so the forward direction is never populated). -/
def promisifyRequest (s : St) (req : Nat) : St × Nat :=
  let (s1, p) := alloc s (.reqPromise req)
  ({ s1 with reverseTransformCache := (p, req) :: s1.reverseTransformCache }, p)

/-- `transformCachableValue` (lines 225-256): wrap functions via
`wrapFunction`; for a transaction not yet in `transactionDoneMap`, build and
cache its done promise; finally proxy the value when it is proxyable, else
return it unchanged. -/
def transformCachableValue (s : St) (v : Nat) : St × Nat :=
  if isFunctionRef s v then wrapFunction s v
  else
    let s1 :=
      if kindOf s v = .transaction ∧ lookupRef s.transactionDoneMap v = none then
        let sd := alloc s (.donePromise v)
        { sd.1 with transactionDoneMap := (v, sd.2) :: sd.1.transactionDoneMap }
      else s
    if isProxyable s1 v then alloc s1 (.proxy v (kindOf s1 v))
    else (s1, v)

/-- `wrap` (lines 263-281): promisify requests (never cached); otherwise
reuse the cached transform, or transform and — when the transform produced
a new object — record the forward and reverse associations. -/
def wrap (s : St) (v : Nat) : St × Nat :=
  if kindOf s v = .request then promisifyRequest s v
  else
    match lookupRef s.transformCache v with
    | some w => (s, w)
    | none =>
      let t := transformCachableValue s v
      if t.2 = v then t
      else
        ({ t.1 with transformCache := (v, t.2) :: t.1.transformCache,
                    reverseTransformCache := (t.2, v) :: t.1.reverseTransformCache },
         t.2)

/-- `unwrap` (line 19): `reverseTransformCache.get(value)`. -/
def unwrap (s : St) (v : Nat) : Option Nat :=
  lookupRef s.reverseTransformCache v

/-- `wrap` applied to a possibly-absent value (`undefined`/`null` pass
through unchanged: they are not requests, not `WeakMap` keys, not functions
and not proxyable, so `wrap` returns them as-is). -/
def wrapVal (s : St) (v : Option Nat) : St × Option Nat :=
  match v with
  | none => (s, none)
  | some r =>
    let w := wrap s r
    (w.1, some w.2)

/-! ### Shorthand method synthesis (`getMethod`, lines 287-328) -/

/-- Model of the host platform: the property names of
`IDBObjectStore.prototype`. -/
def objectStoreProtoProps : List String :=
  ["add", "autoIncrement", "clear", "count", "createIndex", "delete",
   "deleteIndex", "get", "getAll", "getAllKeys", "getKey", "index",
   "indexNames", "keyPath", "name", "openCursor", "openKeyCursor", "put",
   "transaction"]

/-- Model of the host platform: the property names of
`IDBIndex.prototype` (no write operations and no `index` accessor). -/
def indexProtoProps : List String :=
  ["count", "get", "getAll", "getAllKeys", "getKey", "keyPath", "multiEntry",
   "name", "objectStore", "openCursor", "openKeyCursor", "unique"]

/-- The property names present on a raw object (as tested by `prop in
target`). -/
def rawProps (s : St) (r : Nat) : List String :=
  match s.heap[r]? with
  | some (.raw d) => d.props
  | _ => []

/-- The object-valued property `n` of a raw object (`target[n]`), absent
(`undefined`) when the object has no such property. -/
def rawField (s : St) (r : Nat) (n : String) : Option Nat :=
  match s.heap[r]? with
  | some (.raw d) => lookupStr d.fields n
  | _ => none

/-- `prop.replace(/FromIndex$/, '')`: strip one trailing `"FromIndex"`
(9 characters), written on the underlying character lists (`take 9` of the
reversed list is the suffix test). -/
def stripFromIndex (p : String) : String :=
  if p.data.reverse.take 9 = "FromIndex".data.reverse then
    ⟨p.data.take (p.data.length - 9)⟩
  else p

/-- `getMethod` (lines 287-328).  Declines (returns `none`) unless the
target is a database and the name is not already present on it; then
returns the cached method if any; then strips the `FromIndex` suffix,
classifies the base name as write or read, checks the capability exists on
the relevant prototype, and either declines or synthesizes, caches and
returns the method.  (The `typeof prop !== 'string'` guard of line 289 is
reflected in the `String`-typed argument: symbol keys are filtered by the
caller, see `idbGet`.) -/
def getMethod (s : St) (target : Nat) (prop : String) : St × Option Nat :=
  if kindOf s target ≠ .database then (s, none)
  else if prop ∈ rawProps s target then (s, none)
  else
    match lookupStr s.cachedMethods prop with
    | some f => (s, some f)
    | none =>
      let targetFuncName := stripFromIndex prop
      let useIndex := prop ≠ targetFuncName
      let isWrite : Bool := decide (targetFuncName ∈ writeMethods)
      if targetFuncName ∉ (if useIndex then indexProtoProps else objectStoreProtoProps)
          ∨ ¬(isWrite = true ∨ targetFuncName ∈ readMethods) then
        (s, none)
      else
        let m := alloc s (.shorthandFn prop isWrite useIndex)
        ({ m.1 with cachedMethods := (prop, m.2) :: m.1.cachedMethods }, some m.2)

/-! ### The proxy traps (lines 66-84 and 175-222) -/

/-- A property key: a string, or the well-known symbol
`Symbol.asyncIterator` (the only symbol the traps treat specially). -/
inductive PKey where
  | str (n : String)
  | asyncIterator
deriving DecidableEq, Repr

/-- Result of `cursorIteratorTraps.get`: either delegation to `target[prop]`
(the wrapped cursor underneath), or the cached advance stub. -/
inductive CGetRes where
  | delegate
  | stub (f : Nat)
deriving DecidableEq, Repr

/-- `cursorIteratorTraps.get` (lines 66-84): non-string keys and names
outside `advanceMethods` delegate to the target; advance names return the
stub cached in `cachedMethods`, creating and caching it on first use.  (The
stub closes only over the property name; `this` is bound at call time, so
one stub per name serves every cursor.) -/
def cursorTrapGet (s : St) (prop : PKey) : St × CGetRes :=
  match prop with
  | .asyncIterator => (s, .delegate)
  | .str n =>
    if n ∉ advanceMethods then (s, .delegate)
    else
      match lookupStr s.cachedMethods n with
      | some f => (s, .stub f)
      | none =>
        let f := alloc s (.advanceStub n)
        ({ f.1 with cachedMethods := (n, f.2) :: f.1.cachedMethods }, .stub f.2)

/-- Result of `idbProxyTraps.get`: the `iterate` entry point, a value
(possibly `undefined`), or a thrown error. -/
inductive GetRes where
  | iterateFn
  | val (v : Option Nat)
  | thrown (e : Err)
deriving DecidableEq, Repr

/-- `isIteratorProp` (lines 56-61). -/
def isIteratorPropM (s : St) (t : Nat) (p : PKey) : Bool :=
  match p with
  | .asyncIterator => isStoreLike s t || kindOf s t = .cursor
  | .str n => n = "iterate" && isStoreLike s t

/-- The participating stores of a raw transaction (name paired with raw
store reference, in `objectStoreNames` order). -/
def txStores (s : St) (r : Nat) : List (String × Nat) :=
  match s.heap[r]? with
  | some (.raw d) => d.stores
  | _ => []

/-- JS truthiness of `objectStoreNames[i]`: `undefined` and the empty
string are falsy.  (`objectStoreNames` holds distinct sorted names, so an
empty name can only sit at index 0.) -/
def truthyName : Option String → Bool
  | none => false
  | some n => !(n = "")

/-- The `store` branch of `idbProxyTraps.get` (lines 199-203):
`receiver.objectStoreNames[1] ? undefined :
receiver.objectStore(receiver.objectStoreNames[0])`.  With zero
participating stores, `objectStoreNames[0]` is `undefined` and
`objectStore(undefined)` throws `NotFoundError`; with one, the raw store is
resolved by name and wrapped (the `objectStore` call goes through the
receiver, i.e. the wrapped transaction, whose wrapped method wraps the raw
result). -/
def txStoreGet (s : St) (t : Nat) : St × GetRes :=
  let names := (txStores s t).map Prod.fst
  if truthyName names[1]? then (s, .val none)
  else
    match names[0]? with
    | none => (s, .thrown .notFoundError)
    | some n =>
      match lookupStr (txStores s t) n with
      | some st =>
        let w := wrap s st
        (w.1, .val (some w.2))
      | none => (s, .thrown .notFoundError)

/-- `idbProxyTraps.get` (lines 175-208), with `target` the raw object the
proxy was created over.  In source order: the iterator entry point; symbol
keys wrap `target[prop]` (no raw object of the model carries symbol-keyed
fields, so this wraps `undefined`); a method from `getMethod`; cursor
advance methods (mark the raw function cursor-special, then wrap it — a
missing function would make `WeakSet.add` throw); the synthetic `done` and
`store` transaction properties; otherwise wrap `target[prop]`. -/
def idbGet (s : St) (t : Nat) (p : PKey) : St × GetRes :=
  if isIteratorPropM s t p then (s, .iterateFn)
  else
    match p with
    | .asyncIterator =>
      let w := wrapVal s none
      (w.1, .val w.2)
    | .str prop =>
      match getMethod s t prop with
      | (s1, some m) => (s1, .val (some m))
      | (s1, none) =>
        if kindOf s1 t = .cursor ∧ prop ∈ advanceMethods then
          match rawField s1 t prop with
          | some f =>
            let s2 := { s1 with cursorFunctions := f :: s1.cursorFunctions }
            let w := wrap s2 f
            (w.1, .val (some w.2))
          | none => (s1, .thrown .typeError)
        else if kindOf s1 t = .transaction ∧ prop = "done" then
          (s1, .val (lookupRef s1.transactionDoneMap t))
        else if kindOf s1 t = .transaction ∧ prop = "store" then
          txStoreGet s1 t
        else
          let w := wrapVal s1 (rawField s1 t prop)
          (w.1, .val w.2)

/-! ### Transaction done-promise settlement (lines 232-249) -/

/-- The terminal events a transaction can emit. -/
inductive TxEvent where
  | complete
  | errorEvent
  | abortEvent
deriving DecidableEq, Repr

/-- Settlement state of the done promise. -/
inductive DoneState where
  | pending
  | resolvedUnit
  | rejectedErr (e : Err)
deriving DecidableEq, Repr

/-- Which of the three listeners added at lines 246-248 are still
attached. -/
structure DoneListeners where
  complete : Bool := true
  error : Bool := true
  abort : Bool := true
deriving DecidableEq, Repr

/-- One event delivery to the done promise's listeners: `complete` resolves
with no value; `error` and `abort` share one handler that rejects with
`value.error || new DOMException('AbortError', 'AbortError')`; the first
delivered event runs `unlisten`, detaching all three listeners, so later
events are ignored. -/
def doneStep (l : DoneListeners) (st : DoneState) (txError : Option Err)
    (ev : TxEvent) : DoneListeners × DoneState :=
  match ev with
  | .complete =>
    if l.complete then (⟨false, false, false⟩, .resolvedUnit) else (l, st)
  | .errorEvent =>
    if l.error then (⟨false, false, false⟩, .rejectedErr (txError.getD .abortError))
    else (l, st)
  | .abortEvent =>
    if l.abort then (⟨false, false, false⟩, .rejectedErr (txError.getD .abortError))
    else (l, st)

/-! ### Request-promise settlement (lines 147-170) -/

/-- The terminal events a one-shot request can emit, with the payload read
from the request at delivery time (`request.result` / `request.error`). -/
inductive ReqEvent where
  | success (result : Option Nat)
  | failure (e : Option Err)
deriving DecidableEq, Repr

/-- Settlement state of a promisified request. -/
inductive ReqPromiseState where
  | pending
  | resolvedWith (v : Option Nat)
  | rejectedWith (e : Option Err)
deriving DecidableEq, Repr

/-- Which of the two listeners added at lines 162-163 are still attached. -/
structure ReqListeners where
  success : Bool := true
  error : Bool := true
deriving DecidableEq, Repr

/-- One event delivery to a promisified request's listeners: `success`
resolves with `wrap(request.result)` and unlistens; `error` rejects with
`request.error` and unlistens; once unlistened, events are ignored. -/
def reqPromiseStep (s : St) (l : ReqListeners) (st : ReqPromiseState)
    (ev : ReqEvent) : St × ReqListeners × ReqPromiseState :=
  match ev with
  | .success r =>
    if l.success then
      let w := wrapVal s r
      (w.1, ⟨false, false⟩, .resolvedWith w.2)
    else (s, l, st)
  | .failure e =>
    if l.error then (s, ⟨false, false⟩, .rejectedWith e) else (s, l, st)

/-! ### The synthesized method body (lines 309-324)

The body awaits `Promise.all([target[targetFuncName](...args), isWrite &&
tx.done])` and returns element 0.  Promise settlement is modelled by an
outcome (a settle time and either a fulfilment value or a rejection
error); `Promise.all` of two outcomes fulfils with the pair at the later
time, and rejects with the earliest rejection (both inputs being observed,
neither rejection is dropped; a tie goes to the first-listed promise,
matching subscription order). -/

/-- How a settled promise settled: fulfilled with a value, or rejected with
an error. -/
inductive PRes where
  | ok (v : Option Nat)
  | error (e : Err)
deriving DecidableEq, Repr

/-- `Promise.all([a, b])` settled: fulfilled with the pair, or rejected. -/
inductive PPairRes where
  | ok (v : Option Nat × Option Nat)
  | error (e : Err)
deriving DecidableEq, Repr

/-- A settled promise: when it settles and with what. -/
structure POutcome where
  time : Nat
  out : PRes
deriving DecidableEq, Repr

/-- `Promise.all` over two settled promises. -/
def promiseAll2 (a b : POutcome) : Nat × PPairRes :=
  match a.out, b.out with
  | .ok va, .ok vb => (max a.time b.time, .ok (va, vb))
  | .error ea, .ok _ => (a.time, .error ea)
  | .ok _, .error eb => (b.time, .error eb)
  | .error ea, .error eb =>
    if a.time ≤ b.time then (a.time, .error ea) else (b.time, .error eb)

/-- The non-promise `false` passed to `Promise.all` for read operations
(`isWrite && tx.done`): treated as already settled with a fulfilment. -/
def boolOutcome : POutcome := ⟨0, .ok none⟩

/-- The transaction mode chosen at line 311:
`isWrite ? 'readwrite' : 'readonly'`. -/
def shorthandMode (isWrite : Bool) : String :=
  if isWrite then "readwrite" else "readonly"

/-- Element 0 of a settled `Promise.all` pair. -/
def firstOfPair : PPairRes → PRes
  | .ok v => .ok v.1
  | .error e => .error e

/-- The outcome of the synthesized method body: element 0 of
`Promise.all([op, isWrite && tx.done])`. -/
def shorthandOutcome (isWrite : Bool) (op txDone : POutcome) : POutcome :=
  let r := promiseAll2 op (if isWrite then txDone else boolOutcome)
  ⟨r.1, firstOfPair r.2⟩

/-! ### Concrete states used as witnesses and counterexamples -/

/-- A heap holding one raw database. -/
def dbState : St := { heap := [.raw { kind := .database }] }

/-- A heap holding one raw transaction with no participating stores. -/
def emptyTxState : St := { heap := [.raw { kind := .transaction }] }

/-- A heap holding a raw transaction over exactly one store. -/
def oneStoreTxState : St :=
  { heap := [.raw { kind := .transaction, stores := [("s", 1)] },
      .raw { kind := .objectStore }] }

/-- A heap holding a raw transaction listing two stores. -/
def twoStoreTxState : St :=
  { heap := [.raw { kind := .transaction, stores := [("a", 1), ("b", 2)] }] }

/-- Raw data of a database carrying its native `transaction` method. -/
def dbWithMethodRaw : RawData :=
  { kind := .database, props := ["transaction"], fields := [("transaction", 1)] }

/-- A heap holding a raw database carrying its native `transaction` method. -/
def dbWithMethodState : St :=
  { heap := [.raw dbWithMethodRaw, .rawFn "transaction"] }

/-! ### Supporting lemmas -/

theorem lookupRef_cons_self (t : List (Nat × Nat)) (k v : Nat) :
    lookupRef ((k, v) :: t) k = some v := by
  simp [lookupRef]

theorem lookupRef_eraseKey (l : List (Nat × Nat)) (k : Nat) :
    lookupRef (eraseKey l k) k = none := by
  induction l with
  | nil => simp [eraseKey, lookupRef]
  | cons e t ih =>
    by_cases h : e.1 = k
    · simpa [eraseKey, h] using ih
    · simpa [eraseKey, lookupRef, h] using ih

theorem lookupStr_cons_self (t : List (String × Nat)) (k : String) (v : Nat) :
    lookupStr ((k, v) :: t) k = some v := by
  simp [lookupStr]

theorem heapLen_of_get {s : St} {r : Nat} {o : Obj} (h : s.heap[r]? = some o) :
    r < s.heap.length := by
  rcases List.getElem?_eq_some.mp h with ⟨hlt, _⟩
  exact hlt

theorem heapGet_extend {s s' : St} {os : List Obj} {r : Nat}
    (hh : s'.heap = s.heap ++ os) (hlen : r < s.heap.length) :
    s'.heap[r]? = s.heap[r]? := by
  rw [hh, List.getElem?_append_left hlen]

theorem kindOf_extend {s s' : St} {os : List Obj} {r : Nat}
    (hh : s'.heap = s.heap ++ os) (hlen : r < s.heap.length) :
    kindOf s' r = kindOf s r := by
  unfold kindOf
  rw [heapGet_extend hh hlen]

theorem isFunctionRef_extend {s s' : St} {os : List Obj} {r : Nat}
    (hh : s'.heap = s.heap ++ os) (hlen : r < s.heap.length) :
    isFunctionRef s' r = isFunctionRef s r := by
  unfold isFunctionRef
  rw [heapGet_extend hh hlen]

theorem isProxyable_extend {s s' : St} {os : List Obj} {r : Nat}
    (hh : s'.heap = s.heap ++ os) (hlen : r < s.heap.length) :
    isProxyable s' r = isProxyable s r := by
  unfold isProxyable isStoreLike
  rw [kindOf_extend hh hlen]

theorem rawProps_extend {s s' : St} {os : List Obj} {r : Nat}
    (hh : s'.heap = s.heap ++ os) (hlen : r < s.heap.length) :
    rawProps s' r = rawProps s r := by
  unfold rawProps
  rw [heapGet_extend hh hlen]

theorem iterLoopDefault_eq_range' (N p : Nat) (hp : p < N) :
    iterLoopDefault N p = List.range' p (N - p) := by
  rw [iterLoopDefault]
  split
  next heq =>
    simp only [contStepModel] at heq
    split at heq
    · cases heq
    · have hN : N - p = 1 := by omega
      rw [hN, List.range'_one]
  next q heq =>
    simp only [contStepModel] at heq
    split at heq
    next h =>
      cases heq
      rw [iterLoopDefault_eq_range' N (p + 1) h]
      have hm : N - p = (N - (p + 1)) + 1 := by omega
      rw [hm, List.range'_succ]
    · cases heq
termination_by N - p

theorem tcv_eq_of_proxyable (s : St) (r : Nat)
    (hfun : isFunctionRef s r = false) (hp : isProxyable s r = true)
    (hlen : r < s.heap.length) :
    transformCachableValue s r =
      if kindOf s r = .transaction ∧ lookupRef s.transactionDoneMap r = none then
        ({ s with
            heap := s.heap ++ [.donePromise r] ++ [.proxy r (kindOf s r)],
            transactionDoneMap := (r, s.heap.length) :: s.transactionDoneMap },
         s.heap.length + 1)
      else
        ({ s with heap := s.heap ++ [.proxy r (kindOf s r)] }, s.heap.length) := by
  unfold transformCachableValue
  rw [hfun]
  by_cases hC : kindOf s r = .transaction ∧ lookupRef s.transactionDoneMap r = none
  · rw [if_pos hC, if_pos hC]
    simp only [alloc]
    have hh :
        ({ s with
            heap := s.heap ++ [Obj.donePromise r],
            transactionDoneMap := (r, s.heap.length) :: s.transactionDoneMap } : St).heap
          = s.heap ++ [Obj.donePromise r] := rfl
    rw [isProxyable_extend hh hlen, kindOf_extend hh hlen, if_pos hp]
    simp [List.append_assoc]
  · rw [if_neg hC, if_neg hC]
    simp only [alloc]
    rw [if_pos hp]
    simp

theorem wrap_eq_of_fresh (s : St) (r : Nat)
    (hnotreq : kindOf s r ≠ .request)
    (hfresh : lookupRef s.transformCache r = none)
    (hne : ¬ (transformCachableValue s r).2 = r) :
    wrap s r =
      ({ (transformCachableValue s r).1 with
          transformCache :=
            (r, (transformCachableValue s r).2) ::
              (transformCachableValue s r).1.transformCache,
          reverseTransformCache :=
            ((transformCachableValue s r).2, r) ::
              (transformCachableValue s r).1.reverseTransformCache },
       (transformCachableValue s r).2) := by
  unfold wrap
  rw [if_neg hnotreq, hfresh]
  simp [hne]

theorem wrap_cached (s : St) (r w : Nat) (hnotreq : ¬ kindOf s r = .request)
    (hc : lookupRef s.transformCache r = some w) :
    wrap s r = (s, w) := by
  unfold wrap
  rw [if_neg hnotreq, hc]

theorem wrap_fresh_facts (s : St) (r : Nat) (d : RawData)
    (hr : s.heap[r]? = some (.raw d))
    (hp : isProxyable s r = true)
    (hfresh : lookupRef s.transformCache r = none) :
    lookupRef (wrap s r).1.transformCache r = some (wrap s r).2 ∧
    lookupRef (wrap s r).1.reverseTransformCache (wrap s r).2 = some r ∧
    (∃ os : List Obj, (wrap s r).1.heap = s.heap ++ os) ∧
    kindOf (wrap s r).1 r = kindOf s r ∧
    wrap (wrap s r).1 r = wrap s r := by
  have hlen : r < s.heap.length := heapLen_of_get hr
  have hfun : isFunctionRef s r = false := by
    unfold isFunctionRef
    rw [hr]
  have hnotreq : ¬ kindOf s r = .request := by
    intro hcon
    simp [isProxyable, isStoreLike, hcon] at hp
  have htcv := tcv_eq_of_proxyable s r hfun hp hlen
  have hne : ¬ (transformCachableValue s r).2 = r := by
    by_cases hC : kindOf s r = .transaction ∧ lookupRef s.transactionDoneMap r = none
    · rw [htcv, if_pos hC]
      simp
      omega
    · rw [htcv, if_neg hC]
      simp
      omega
  have hw := wrap_eq_of_fresh s r hnotreq hfresh hne
  have hA : lookupRef (wrap s r).1.transformCache r = some (wrap s r).2 := by
    rw [hw]
    simp [lookupRef]
  have hB : lookupRef (wrap s r).1.reverseTransformCache (wrap s r).2 = some r := by
    rw [hw]
    simp [lookupRef]
  have hos : ∃ os : List Obj, (wrap s r).1.heap = s.heap ++ os := by
    have hheap : (wrap s r).1.heap = (transformCachableValue s r).1.heap := by
      rw [hw]
    rw [hheap]
    by_cases hC : kindOf s r = .transaction ∧ lookupRef s.transactionDoneMap r = none
    · rw [htcv, if_pos hC]
      exact ⟨[Obj.donePromise r] ++ [Obj.proxy r (kindOf s r)], by simp⟩
    · rw [htcv, if_neg hC]
      exact ⟨[Obj.proxy r (kindOf s r)], rfl⟩
  have hk1 : kindOf (wrap s r).1 r = kindOf s r := by
    obtain ⟨os, hh⟩ := hos
    exact kindOf_extend hh hlen
  refine ⟨hA, hB, hos, hk1, ?_⟩
  calc wrap (wrap s r).1 r = ((wrap s r).1, (wrap s r).2) :=
        wrap_cached _ r (wrap s r).2 (by rw [hk1]; exact hnotreq) hA
    _ = wrap s r := rfl

theorem getMethod_fresh_eq (s : St) (db : Nat) (prop : String)
    (hkind : kindOf s db = .database)
    (hnotin : prop ∉ rawProps s db)
    (hfresh : lookupStr s.cachedMethods prop = none) :
    getMethod s db prop =
      (if stripFromIndex prop ∉
            (if prop ≠ stripFromIndex prop then indexProtoProps else objectStoreProtoProps)
          ∨ ¬(decide (stripFromIndex prop ∈ writeMethods) = true
                ∨ stripFromIndex prop ∈ readMethods) then
        (s, none)
      else
        ({ s with
            heap := s.heap ++
              [.shorthandFn prop (decide (stripFromIndex prop ∈ writeMethods))
                (decide (prop ≠ stripFromIndex prop))],
            cachedMethods := (prop, s.heap.length) :: s.cachedMethods },
         some s.heap.length)) := by
  unfold getMethod
  rw [if_neg (by rw [hkind]; simp), if_neg hnotin, hfresh]
  rfl

theorem getMethod_inProps_eq (s : St) (db : Nat) (prop : String)
    (hkind : kindOf s db = .database)
    (hin : prop ∈ rawProps s db) :
    getMethod s db prop = (s, none) := by
  unfold getMethod
  rw [if_neg (by rw [hkind]; simp), if_pos hin]

/-! ### Claim theorems -/

/-- C1 (amended): for a raw proxyable object `r` not yet wrapped, wrapping
is idempotent in the sense that wrapping the same raw object a second time
returns the identical wrapped object with no further state change, and
unwrapping the wrapped object returns `r`.  (Applying `wrap` to the already
wrapped proxy, by contrast, builds a fresh double proxy — see the
counterexample.) -/
theorem wrap_same_raw_twice_and_unwrap (s : St) (r : Nat) (d : RawData)
    (hr : s.heap[r]? = some (.raw d))
    (hp : isProxyable s r = true)
    (hfresh : lookupRef s.transformCache r = none) :
    wrap (wrap s r).1 r = wrap s r ∧
    unwrap (wrap s r).1 (wrap s r).2 = some r := by
  have h := wrap_fresh_facts s r d hr hp hfresh
  exact ⟨h.2.2.2.2, h.2.1⟩

/-- C1 witness: a one-object state holding a raw database. -/
theorem wrap_same_raw_twice_and_unwrap_witness :
    wrap (wrap { heap := [.raw { kind := .database }] } 0).1 0 =
      wrap { heap := [.raw { kind := .database }] } 0 ∧
    unwrap (wrap { heap := [.raw { kind := .database }] } 0).1
      (wrap { heap := [.raw { kind := .database }] } 0).2 = some 0 :=
  wrap_same_raw_twice_and_unwrap { heap := [.raw { kind := .database }] } 0
    { kind := .database } rfl rfl rfl

/-- C1 counterexample: the claim `wrap(wrap(r))` is reference-identical to
`wrap(r)` is false.  Wrapping a raw database yields a proxy; the proxy is
not a key of `transformCache` (only the raw object is), is itself
proxyable (a JS proxy passes the target's `instanceof` checks), and so
`wrap` applied to it builds a fresh double proxy, a different object. -/
theorem wrap_wrap_not_idempotent :
    (wrap (wrap { heap := [.raw { kind := .database }] } 0).1
        (wrap { heap := [.raw { kind := .database }] } 0).2).2 ≠
      (wrap { heap := [.raw { kind := .database }] } 0).2 := by
  decide

/-- C3: the first wrap of a raw transaction creates and caches its done
promise (at the next free heap cell); wrapping the same transaction again
changes nothing and returns the same proxy, and every access to the `done`
property through the proxy trap returns that identical cached promise with
no state change.  The promise settles as the handlers of lines 232-249
dictate: resolved with no value on `complete`, rejected with the
transaction's error — or a generic `AbortError` when none is set — on
`error` or `abort`; the first event detaches all listeners. -/
theorem transaction_done_promise_cached_once (s : St) (t : Nat) (d : RawData)
    (ht : s.heap[t]? = some (.raw d)) (hk : d.kind = .transaction)
    (hfreshTx : lookupRef s.transformCache t = none)
    (hfreshDone : lookupRef s.transactionDoneMap t = none)
    (txError : Option Err) :
    lookupRef (wrap s t).1.transactionDoneMap t = some s.heap.length ∧
    (wrap s t).1.heap[s.heap.length]? = some (.donePromise t) ∧
    wrap (wrap s t).1 t = wrap s t ∧
    idbGet (wrap s t).1 t (.str "done") =
      ((wrap s t).1, .val (some s.heap.length)) ∧
    doneStep ⟨true, true, true⟩ .pending txError .complete =
      (⟨false, false, false⟩, .resolvedUnit) ∧
    doneStep ⟨true, true, true⟩ .pending txError .errorEvent =
      (⟨false, false, false⟩, .rejectedErr (txError.getD .abortError)) ∧
    doneStep ⟨true, true, true⟩ .pending txError .abortEvent =
      (⟨false, false, false⟩, .rejectedErr (txError.getD .abortError)) := by
  have hlen : t < s.heap.length := heapLen_of_get ht
  have hkind : kindOf s t = .transaction := by
    simp [kindOf, ht, hk]
  have hp : isProxyable s t = true := by
    simp [isProxyable, isStoreLike, hkind]
  have hfun : isFunctionRef s t = false := by
    unfold isFunctionRef
    rw [ht]
  have hnotreq : ¬ kindOf s t = .request := by
    rw [hkind]
    simp
  have hC : kindOf s t = .transaction ∧ lookupRef s.transactionDoneMap t = none :=
    ⟨hkind, hfreshDone⟩
  have htcv := tcv_eq_of_proxyable s t hfun hp hlen
  rw [if_pos hC] at htcv
  have hne : ¬ (transformCachableValue s t).2 = t := by
    rw [htcv]
    simp
    omega
  have hw := wrap_eq_of_fresh s t hnotreq hfreshTx hne
  have hfacts := wrap_fresh_facts s t d ht hp hfreshTx
  have hdone : lookupRef (wrap s t).1.transactionDoneMap t = some s.heap.length := by
    rw [hw, htcv]
    simp [lookupRef]
  have hheapdone : (wrap s t).1.heap[s.heap.length]? = some (.donePromise t) := by
    rw [hw, htcv]
    show (s.heap ++ [Obj.donePromise t] ++ [Obj.proxy t (kindOf s t)])[s.heap.length]? =
      some (Obj.donePromise t)
    rw [List.getElem?_append_left (by simp), List.getElem?_concat_length]
  have hk1tx : kindOf (wrap s t).1 t = .transaction := by
    rw [hfacts.2.2.2.1, hkind]
  have hgm : getMethod (wrap s t).1 t "done" = ((wrap s t).1, none) := by
    unfold getMethod
    rw [if_pos (by rw [hk1tx]; simp)]
  have hidb : idbGet (wrap s t).1 t (.str "done") =
      ((wrap s t).1, .val (some s.heap.length)) := by
    unfold idbGet
    rw [if_neg (by simp [isIteratorPropM, isStoreLike, hk1tx])]
    simp only [hgm]
    simp [hk1tx, advanceMethods, hdone]
  exact ⟨hdone, hheapdone, hfacts.2.2.2.2, hidb, rfl, rfl, rfl⟩

/-- C3 witness: a one-object state holding a raw transaction, with no
transaction error set. -/
theorem transaction_done_promise_cached_once_witness :
    lookupRef (wrap { heap := [.raw { kind := .transaction }] } 0).1.transactionDoneMap 0 =
      some 1 ∧
    (wrap { heap := [.raw { kind := .transaction }] } 0).1.heap[1]? =
      some (.donePromise 0) ∧
    wrap (wrap { heap := [.raw { kind := .transaction }] } 0).1 0 =
      wrap { heap := [.raw { kind := .transaction }] } 0 ∧
    idbGet (wrap { heap := [.raw { kind := .transaction }] } 0).1 0 (.str "done") =
      ((wrap { heap := [.raw { kind := .transaction }] } 0).1, .val (some 1)) ∧
    doneStep ⟨true, true, true⟩ .pending none .complete =
      (⟨false, false, false⟩, .resolvedUnit) ∧
    doneStep ⟨true, true, true⟩ .pending none .errorEvent =
      (⟨false, false, false⟩, .rejectedErr .abortError) ∧
    doneStep ⟨true, true, true⟩ .pending none .abortEvent =
      (⟨false, false, false⟩, .rejectedErr .abortError) :=
  transaction_done_promise_cached_once { heap := [.raw { kind := .transaction }] } 0
    { kind := .transaction } rfl rfl rfl rfl none

/-- C2: iterating a store or index with `N` records via the iteration entry
point without ever calling an advance method yields exactly the `N`
positions `0, ..., N - 1` in underlying-API order and then ends (each pass
issues the default `continue` advance since no intent was stashed, and the
sequence terminates when the awaited result is null); and when the initial
open-cursor call yields null, the sequence is empty. -/
theorem iterate_default_yields_all_positions (N : Nat) :
    iterateStore N = List.range N ∧
    (openCursorModel N = none → iterateStore N = []) := by
  constructor
  · by_cases h : N = 0
    · subst h
      rfl
    · have h0 : 0 < N := Nat.pos_of_ne_zero h
      simp only [iterateStore, openCursorModel, if_neg h]
      rw [iterLoopDefault_eq_range' N 0 h0, List.range_eq_range', Nat.sub_zero]
  · intro h
    simp only [iterateStore, h]

/-- C2 witness: the empty-cursor clause at `N = 0`. -/
theorem iterate_default_yields_all_positions_witness : iterateStore 0 = [] :=
  (iterate_default_yields_all_positions 0).2 rfl

/-- C6: when the consumer calls several position-advancing operations within
one pass (stub calls stashing results `l ++ [r]` in order), only the promise
of the last call is awaited at the end of the pass, and the stashed intent
slot is cleared after every pass (also after passes with no advance
call). -/
theorem advance_intent_last_write_wins (s : St) (pc dflt r : Nat) (l : List Nat) :
    (passAwait ((l ++ [r]).foldl (fun st x => advanceStubCall st pc x) s) pc dflt).2 = r ∧
    lookupRef
      (passAwait ((l ++ [r]).foldl (fun st x => advanceStubCall st pc x) s) pc
        dflt).1.advanceResults pc = none ∧
    (∀ s' : St, lookupRef (passAwait s' pc dflt).1.advanceResults pc = none) := by
  have hfold :
      ((l ++ [r]).foldl (fun st x => advanceStubCall st pc x) s).advanceResults =
        (pc, r) :: (l.foldl (fun st x => advanceStubCall st pc x) s).advanceResults := by
    rw [List.foldl_append]
    rfl
  refine ⟨?_, ?_, fun s' => ?_⟩
  · simp [passAwait, hfold, advanceStubCall, lookupRef]
  · simp [passAwait, lookupRef_eraseKey]
  · simp [passAwait, lookupRef_eraseKey]

/-- C5: promisifying a one-shot request is exactly what `wrap` does to a
request; the promise is registered in the reverse identity mapping so
unwrapping it yields the request; a success event resolves the promise with
the wrapped result and an error event rejects it with the request's error,
each detaching both listeners, and once the listeners are detached, further
events change nothing. -/
theorem promisify_request_semantics (s : St) (req : Nat) (d : RawData)
    (hr : s.heap[req]? = some (.raw d)) (hk : d.kind = .request)
    (v : Option Nat) (e : Option Err) :
    wrap s req = promisifyRequest s req ∧
    unwrap (promisifyRequest s req).1 (promisifyRequest s req).2 = some req ∧
    (∀ s2 : St, reqPromiseStep s2 ⟨true, true⟩ .pending (.success v) =
      ((wrapVal s2 v).1, ⟨false, false⟩, .resolvedWith (wrapVal s2 v).2)) ∧
    (∀ s2 : St, reqPromiseStep s2 ⟨true, true⟩ .pending (.failure e) =
      (s2, ⟨false, false⟩, .rejectedWith e)) ∧
    (∀ (s2 : St) (st : ReqPromiseState) (ev : ReqEvent),
      reqPromiseStep s2 ⟨false, false⟩ st ev = (s2, ⟨false, false⟩, st)) := by
  have hkind : kindOf s req = .request := by
    simp [kindOf, hr, hk]
  refine ⟨?_, ?_, fun s2 => rfl, fun s2 => rfl, fun s2 st ev => ?_⟩
  · unfold wrap
    rw [if_pos hkind]
  · simp [promisifyRequest, alloc, unwrap, lookupRef]
  · cases ev <;> rfl

/-- C5 witness: a one-object state holding a raw request. -/
theorem promisify_request_semantics_witness :
    wrap { heap := [.raw { kind := .request }] } 0 =
      promisifyRequest { heap := [.raw { kind := .request }] } 0 ∧
    unwrap (promisifyRequest { heap := [.raw { kind := .request }] } 0).1
      (promisifyRequest { heap := [.raw { kind := .request }] } 0).2 = some 0 ∧
    (∀ s2 : St, reqPromiseStep s2 ⟨true, true⟩ .pending (.success none) =
      ((wrapVal s2 none).1, ⟨false, false⟩, .resolvedWith (wrapVal s2 none).2)) ∧
    (∀ s2 : St, reqPromiseStep s2 ⟨true, true⟩ .pending (.failure none) =
      (s2, ⟨false, false⟩, .rejectedWith none)) ∧
    (∀ (s2 : St) (st : ReqPromiseState) (ev : ReqEvent),
      reqPromiseStep s2 ⟨false, false⟩ st ev = (s2, ⟨false, false⟩, st)) :=
  promisify_request_semantics { heap := [.raw { kind := .request }] } 0
    { kind := .request } rfl rfl none none

/-- C7 (amended): accessing the synthetic `store` property on a wrapped
transaction returns the wrapped single participating store when exactly one
store name is listed, returns undefined when two or more are listed (the
second listed name being non-empty, as `objectStoreNames` is sorted and
duplicate-free), and — contrary to the claim — throws `NotFoundError`
rather than returning undefined when zero are listed, because the code then
evaluates `objectStore(undefined)`. -/
theorem tx_store_property (s : St) (t : Nat) (d : RawData)
    (ht : s.heap[t]? = some (.raw d)) (hk : d.kind = .transaction) :
    idbGet s t (.str "store") = txStoreGet s t ∧
    (∀ n st, d.stores = [(n, st)] →
      txStoreGet s t = ((wrap s st).1, .val (some (wrap s st).2))) ∧
    (∀ p1 p2 rest, d.stores = p1 :: p2 :: rest → ¬ p2.1 = "" →
      txStoreGet s t = (s, .val none)) ∧
    (d.stores = [] → txStoreGet s t = (s, .thrown .notFoundError)) := by
  have hkind : kindOf s t = .transaction := by
    simp [kindOf, ht, hk]
  have hgm : getMethod s t "store" = (s, none) := by
    unfold getMethod
    rw [if_pos (by rw [hkind]; simp)]
  refine ⟨?_, ?_, ?_, ?_⟩
  · unfold idbGet
    rw [if_neg (by simp [isIteratorPropM, isStoreLike, hkind])]
    simp only [hgm]
    simp [hkind, advanceMethods]
  · intro n st hstores
    simp [txStoreGet, txStores, ht, hstores, truthyName, lookupStr]
  · intro p1 p2 rest hstores hne
    simp [txStoreGet, txStores, ht, hstores, truthyName, hne]
  · intro hstores
    simp [txStoreGet, txStores, ht, hstores, truthyName]

/-- C7 witness: a transaction with exactly one participating store, and one
with two. -/
theorem tx_store_property_witness :
    txStoreGet oneStoreTxState 0 =
      ((wrap oneStoreTxState 1).1, .val (some (wrap oneStoreTxState 1).2)) ∧
    txStoreGet twoStoreTxState 0 = (twoStoreTxState, .val none) :=
  ⟨(tx_store_property oneStoreTxState 0
      { kind := .transaction, stores := [("s", 1)] } rfl rfl).2.1 "s" 1 rfl,
   (tx_store_property twoStoreTxState 0
      { kind := .transaction, stores := [("a", 1), ("b", 2)] } rfl rfl).2.2.1
      ("a", 1) ("b", 2) [] rfl (by decide)⟩

/-- C7 counterexample: on a raw transaction listing zero store names (as a
version-change transaction of a database with no stores yet does), the
`store` property access throws `NotFoundError` instead of returning
undefined as the claim states. -/
theorem tx_store_zero_stores_throws :
    idbGet emptyTxState 0 (.str "store") =
      (emptyTxState, .thrown .notFoundError) ∧
    GetRes.thrown Err.notFoundError ≠ GetRes.val none := by
  constructor
  · decide
  · decide

/-- C9: shorthand synthesis never shadows an existing property of the raw
database: for a name present on it, `getMethod` declines (before even
consulting the method cache), and the trap returns the wrapped raw property
value. -/
theorem shorthand_never_shadows (s : St) (db : Nat) (d : RawData)
    (hdb : s.heap[db]? = some (.raw d)) (hk : d.kind = .database)
    (prop : String) (hprop : prop ∈ d.props) :
    getMethod s db prop = (s, none) ∧
    idbGet s db (.str prop) =
      ((wrapVal s (rawField s db prop)).1, .val (wrapVal s (rawField s db prop)).2) := by
  have hkind : kindOf s db = .database := by
    simp [kindOf, hdb, hk]
  have hgm : getMethod s db prop = (s, none) := by
    unfold getMethod
    rw [if_neg (by rw [hkind]; simp), if_pos (by simpa [rawProps, hdb] using hprop)]
  refine ⟨hgm, ?_⟩
  unfold idbGet
  rw [if_neg (by simp [isIteratorPropM, isStoreLike, hkind])]
  simp only [hgm]
  simp [hkind]

/-- C9 witness: the native `transaction` method of a raw database is
returned wrapped, not replaced by a synthesized shorthand. -/
theorem shorthand_never_shadows_witness :
    getMethod dbWithMethodState 0 "transaction" = (dbWithMethodState, none) ∧
    idbGet dbWithMethodState 0 (.str "transaction") =
      ((wrapVal dbWithMethodState (rawField dbWithMethodState 0 "transaction")).1,
       .val (wrapVal dbWithMethodState (rawField dbWithMethodState 0 "transaction")).2) :=
  shorthand_never_shadows dbWithMethodState 0
    { kind := .database, props := ["transaction"], fields := [("transaction", 1)] }
    rfl rfl "transaction" (by decide)

/-- C10: the cursor advance stubs and the database shorthand methods share
the one name-keyed `cachedMethods` cache: once an iteration pass has cached
the stub for an advance-method name, `getMethod` on a wrapped database
returns that very stub for the same name — even though the name is outside
both the read and the write allow-lists — and the property access yields
it. -/
theorem advance_stub_leaks_to_database (s : St) (db : Nat) (d : RawData) (prop : String)
    (hdb : s.heap[db]? = some (.raw d)) (hk : d.kind = .database)
    (hadv : prop ∈ advanceMethods)
    (hnotprop : prop ∉ d.props)
    (hfresh : lookupStr s.cachedMethods prop = none) :
    cursorTrapGet s (.str prop) =
      ({ s with heap := s.heap ++ [.advanceStub prop],
                cachedMethods := (prop, s.heap.length) :: s.cachedMethods },
       .stub s.heap.length) ∧
    getMethod (cursorTrapGet s (.str prop)).1 db prop =
      ((cursorTrapGet s (.str prop)).1, some s.heap.length) ∧
    idbGet (cursorTrapGet s (.str prop)).1 db (.str prop) =
      ((cursorTrapGet s (.str prop)).1, .val (some s.heap.length)) ∧
    prop ∉ readMethods ∧ prop ∉ writeMethods := by
  have hlen : db < s.heap.length := heapLen_of_get hdb
  have hct : cursorTrapGet s (.str prop) =
      ({ s with heap := s.heap ++ [.advanceStub prop],
                cachedMethods := (prop, s.heap.length) :: s.cachedMethods },
       .stub s.heap.length) := by
    simp only [cursorTrapGet]
    rw [if_neg (by simp [hadv]), hfresh]
    rfl
  have hh : (cursorTrapGet s (.str prop)).1.heap = s.heap ++ [Obj.advanceStub prop] := by
    rw [hct]
  have hk1 : kindOf (cursorTrapGet s (.str prop)).1 db = .database := by
    rw [kindOf_extend hh hlen]
    simp [kindOf, hdb, hk]
  have hprops : prop ∉ rawProps (cursorTrapGet s (.str prop)).1 db := by
    rw [rawProps_extend hh hlen]
    simpa [rawProps, hdb] using hnotprop
  have hcache : lookupStr (cursorTrapGet s (.str prop)).1.cachedMethods prop =
      some s.heap.length := by
    rw [hct]
    simp [lookupStr]
  have hgm : getMethod (cursorTrapGet s (.str prop)).1 db prop =
      ((cursorTrapGet s (.str prop)).1, some s.heap.length) := by
    unfold getMethod
    rw [if_neg (by rw [hk1]; simp), if_neg hprops, hcache]
  have hnames : prop = "advance" ∨ prop = "continue" ∨ prop = "continuePrimaryKey" := by
    simpa [advanceMethods] using hadv
  refine ⟨hct, hgm, ?_, ?_, ?_⟩
  · unfold idbGet
    rw [if_neg (by simp [isIteratorPropM, isStoreLike, hk1])]
    simp only [hgm]
  · rcases hnames with h | h | h <;> subst h <;> decide
  · rcases hnames with h | h | h <;> subst h <;> decide

/-- C10 witness: the `"continue"` stub cached by an iteration pass is
served back by `getMethod` on a database. -/
theorem advance_stub_leaks_to_database_witness :
    cursorTrapGet { heap := [.raw { kind := .database }] } (.str "continue") =
      ({ heap := [.raw { kind := .database }, .advanceStub "continue"],
         cachedMethods := [("continue", 1)] }, .stub 1) ∧
    getMethod (cursorTrapGet { heap := [.raw { kind := .database }] }
        (.str "continue")).1 0 "continue" =
      ((cursorTrapGet { heap := [.raw { kind := .database }] } (.str "continue")).1,
       some 1) ∧
    idbGet (cursorTrapGet { heap := [.raw { kind := .database }] }
        (.str "continue")).1 0 (.str "continue") =
      ((cursorTrapGet { heap := [.raw { kind := .database }] } (.str "continue")).1,
       .val (some 1)) ∧
    "continue" ∉ readMethods ∧ "continue" ∉ writeMethods :=
  advance_stub_leaks_to_database { heap := [.raw { kind := .database }] } 0
    { kind := .database } "continue" rfl rfl (by decide) (by decide) rfl

/-- C8 (amended): on a database, for a name not already in the shared method
cache, a method is synthesized only if the name is absent from the database
itself, its base (after stripping the index suffix) is in the read or write
allow-list, and the capability exists on the targeted prototype; a name
failing the allow-list or capability check resolves as absent — `getMethod`
declines and the property access yields the (undefined) raw value — rather
than throwing.  (Without the fresh-cache hypothesis the claim is false: a
cursor-iteration pass can deposit an advance stub under a name outside the
allow-lists, which `getMethod` then serves — see the counterexample.) -/
theorem shorthand_allowlist_gating (s : St) (db : Nat) (d : RawData) (prop : String)
    (hdb : s.heap[db]? = some (.raw d)) (hk : d.kind = .database)
    (hfresh : lookupStr s.cachedMethods prop = none) :
    (∀ s1 m, getMethod s db prop = (s1, some m) →
      prop ∉ d.props ∧
      (stripFromIndex prop ∈ readMethods ∨ stripFromIndex prop ∈ writeMethods) ∧
      stripFromIndex prop ∈
        (if prop ≠ stripFromIndex prop then indexProtoProps else objectStoreProtoProps)) ∧
    ((stripFromIndex prop ∉ readMethods ∧ stripFromIndex prop ∉ writeMethods) →
      getMethod s db prop = (s, none)) ∧
    (stripFromIndex prop ∉
        (if prop ≠ stripFromIndex prop then indexProtoProps else objectStoreProtoProps) →
      getMethod s db prop = (s, none)) ∧
    ((stripFromIndex prop ∉ readMethods ∧ stripFromIndex prop ∉ writeMethods) →
      prop ∉ d.props → rawField s db prop = none →
      idbGet s db (.str prop) = (s, .val none)) := by
  have hkind : kindOf s db = .database := by
    simp [kindOf, hdb, hk]
  have hprops : rawProps s db = d.props := by
    simp [rawProps, hdb]
  have hfailnone :
      (stripFromIndex prop ∉ readMethods ∧ stripFromIndex prop ∉ writeMethods) →
        getMethod s db prop = (s, none) := by
    intro hfail
    by_cases hin : prop ∈ rawProps s db
    · exact getMethod_inProps_eq s db prop hkind hin
    · rw [getMethod_fresh_eq s db prop hkind hin hfresh, if_pos ?_]
      right
      intro hc
      rcases hc with h | h
      · exact hfail.2 (by simpa using h)
      · exact hfail.1 h
  refine ⟨?_, hfailnone, ?_, ?_⟩
  · intro s1 m hm
    by_cases hin : prop ∈ rawProps s db
    · rw [getMethod_inProps_eq s db prop hkind hin] at hm
      simp at hm
    · rw [getMethod_fresh_eq s db prop hkind hin hfresh] at hm
      by_cases hcond :
          stripFromIndex prop ∉
              (if prop ≠ stripFromIndex prop then indexProtoProps
               else objectStoreProtoProps)
            ∨ ¬(decide (stripFromIndex prop ∈ writeMethods) = true
                  ∨ stripFromIndex prop ∈ readMethods)
      · rw [if_pos hcond] at hm
        simp at hm
      · rw [if_neg hcond] at hm
        push_neg at hcond
        rw [hprops] at hin
        refine ⟨hin, ?_, hcond.1⟩
        rcases hcond.2 with h | h
        · right
          simpa using h
        · left
          exact h
  · intro hfail
    by_cases hin : prop ∈ rawProps s db
    · exact getMethod_inProps_eq s db prop hkind hin
    · rw [getMethod_fresh_eq s db prop hkind hin hfresh, if_pos (Or.inl hfail)]
  · intro hfail hnotin hfield
    have hgm : getMethod s db prop = (s, none) := hfailnone hfail
    unfold idbGet
    rw [if_neg (by simp [isIteratorPropM, isStoreLike, hkind])]
    simp only [hgm]
    simp [hkind, hfield, wrapVal]

/-- C8 witness: `"continue"` (outside both allow-lists) resolves as absent on
a database with a fresh cache. -/
theorem shorthand_allowlist_gating_witness :
    getMethod { heap := [.raw { kind := .database }] } 0 "continue" =
      ({ heap := [.raw { kind := .database }] }, none) ∧
    idbGet { heap := [.raw { kind := .database }] } 0 (.str "continue") =
      ({ heap := [.raw { kind := .database }] }, .val none) := by
  have h := shorthand_allowlist_gating { heap := [.raw { kind := .database }] } 0
    { kind := .database } "continue" rfl rfl rfl
  exact ⟨h.2.1 (by decide), h.2.2.2 (by decide) (by decide) rfl⟩

/-- C8 counterexample: the claim that a method is produced only for
allow-listed names is false once the shared cache holds a cursor advance
stub: after an iteration pass caches the `"continue"` stub,
`getMethod` on a database produces a method for `"continue"`, a name in
neither allow-list. -/
theorem shorthand_gating_cache_pollution :
    (getMethod (cursorTrapGet { heap := [.raw { kind := .database }] }
        (.str "continue")).1 0 "continue").2 = some 1 ∧
    "continue" ∉ readMethods ∧ "continue" ∉ writeMethods := by
  refine ⟨?_, by decide, by decide⟩
  decide

/-- C4: a synthesized write shorthand opens its transaction in `readwrite`
mode and a read shorthand in `readonly` mode; for writes the operation's
promise and the transaction-completion promise are awaited together via
`Promise.all`, which rejects with whichever of the two rejects first (both
being observed) and otherwise settles with the operation's result no
earlier than transaction completion; for reads only the operation's
outcome matters. -/
theorem shorthand_write_await_semantics (op txd : POutcome) :
    shorthandMode true = "readwrite" ∧ shorthandMode false = "readonly" ∧
    (∀ vo vd, op.out = .ok vo → txd.out = .ok vd →
      shorthandOutcome true op txd = ⟨max op.time txd.time, .ok vo⟩ ∧
      txd.time ≤ (shorthandOutcome true op txd).time) ∧
    (∀ e vd, op.out = .error e → txd.out = .ok vd →
      shorthandOutcome true op txd = ⟨op.time, .error e⟩) ∧
    (∀ vo e, op.out = .ok vo → txd.out = .error e →
      shorthandOutcome true op txd = ⟨txd.time, .error e⟩) ∧
    (∀ ea eb, op.out = .error ea → txd.out = .error eb → op.time ≤ txd.time →
      shorthandOutcome true op txd = ⟨op.time, .error ea⟩) ∧
    (∀ ea eb, op.out = .error ea → txd.out = .error eb → txd.time < op.time →
      shorthandOutcome true op txd = ⟨txd.time, .error eb⟩) ∧
    (∀ vo, op.out = .ok vo →
      shorthandOutcome false op txd = ⟨op.time, .ok vo⟩) ∧
    (∀ e, op.out = .error e →
      shorthandOutcome false op txd = ⟨op.time, .error e⟩) ∧
    (∀ (s : St) (db : Nat) (prop : String),
      kindOf s db = .database → prop ∉ rawProps s db →
      lookupStr s.cachedMethods prop = none →
      stripFromIndex prop ∈
        (if prop ≠ stripFromIndex prop then indexProtoProps
         else objectStoreProtoProps) →
      (decide (stripFromIndex prop ∈ writeMethods) = true
        ∨ stripFromIndex prop ∈ readMethods) →
      (getMethod s db prop).1.heap[s.heap.length]? =
        some (.shorthandFn prop (decide (stripFromIndex prop ∈ writeMethods))
          (decide (prop ≠ stripFromIndex prop)))) := by
  refine ⟨rfl, rfl, ?_, ?_, ?_, ?_, ?_, ?_, ?_, ?_⟩
  · intro vo vd h1 h2
    constructor
    · simp [shorthandOutcome, promiseAll2, firstOfPair, h1, h2]
    · simp [shorthandOutcome, promiseAll2, firstOfPair, h1, h2]
  · intro e vd h1 h2
    simp [shorthandOutcome, promiseAll2, firstOfPair, h1, h2]
  · intro vo e h1 h2
    simp [shorthandOutcome, promiseAll2, firstOfPair, h1, h2]
  · intro ea eb h1 h2 hle
    simp [shorthandOutcome, promiseAll2, firstOfPair, h1, h2, hle]
  · intro ea eb h1 h2 hlt
    simp [shorthandOutcome, promiseAll2, firstOfPair, h1, h2, Nat.not_le.mpr hlt]
  · intro vo h1
    simp [shorthandOutcome, promiseAll2, firstOfPair, boolOutcome, h1]
  · intro e h1
    simp [shorthandOutcome, promiseAll2, firstOfPair, boolOutcome, h1]
  · intro s db prop hkind hnotin hfresh hproto hrw
    rw [getMethod_fresh_eq s db prop hkind hnotin hfresh,
      if_neg (by push_neg; exact ⟨hproto, hrw⟩)]
    show (s.heap ++ [_])[s.heap.length]? = _
    rw [List.getElem?_concat_length]

/-- C4 witness: the operation rejects while the transaction completes; the
write shorthand rejects with the operation's error. -/
theorem shorthand_write_await_semantics_witness :
    shorthandOutcome true ⟨5, .error .abortError⟩ ⟨3, .ok none⟩ =
      ⟨5, .error .abortError⟩ :=
  (shorthand_write_await_semantics ⟨5, .error .abortError⟩ ⟨3, .ok none⟩).2.2.2.1
    .abortError none rfl rfl

end Idb
